import Mathlib

/-!
# MatrixPlay2_RPi: the piomatter C ABI backend

A shallow embedding of `src/jni/piomatter_backend.cpp` (with the types of
`src/jni/piomatter_abi.h`) and the properties of its interleaved-column address
map and of its framebuffer operations.

Conventions of the embedding.

* `int` is a 32-bit signed integer.  Values are carried as `Int`; every `int`
  operation is checked, and an operation whose mathematical result leaves
  `[INT_MIN, INT_MAX]`, or that divides by zero, is undefined behaviour in C++
  and is reported as a `Fault`.
* `size_t` is a 64-bit unsigned integer (the target is the 64-bit Raspberry Pi);
  its arithmetic wraps modulo `2^64`.
* `uint8_t` is `Fin 256`.
* A pointer that may be null is an `Option`; `none` is `nullptr`.
* A `pm_device*` that a caller keeps across calls is a `pm_handle`: null, pointing at a
  live device, or dangling once `pm_close` has deleted the device.  Reading or writing
  through a dangling pointer is undefined behaviour and is reported as a `Fault`.
* `std::vector<T>` is a `List T`; `operator[]` outside the vector is undefined
  behaviour and is reported as a `Fault`.
* Memory exhaustion (`std::bad_alloc`) is not modelled: allocations succeed.
-/

namespace Piomatter

/-! ## Execution outcomes -/

/-- Ways in which a run of the C++ code fails to produce a value: a C++ exception
(which a `catch (...)` intercepts), or one of four kinds of undefined behaviour
(which nothing intercepts). -/
inductive Fault where
  | cpp_exception
  | div_by_zero
  | signed_overflow
  | out_of_range
  | use_after_free
  deriving DecidableEq, Repr

/-- Outcome of running a piece of the C++ code. -/
inductive Exec (α : Type) where
  | ok (a : α)
  | fault (f : Fault)
  deriving DecidableEq, Repr

/-- Sequencing of two pieces of code: a fault in the first one ends the run. -/
def Exec.bind {α β : Type} (m : Exec α) (k : α → Exec β) : Exec β :=
  match m with
  | Exec.ok a => k a
  | Exec.fault f => Exec.fault f

instance : Monad Exec where
  pure := Exec.ok
  bind := Exec.bind

/-! ## Machine integers -/

/-- Smallest value of a 32-bit `int`. -/
def INT_MIN : Int := -2147483648

/-- Largest value of a 32-bit `int`. -/
def INT_MAX : Int := 2147483647

/-- The values an `int` can hold. -/
def in_int_range (v : Int) : Prop := INT_MIN ≤ v ∧ v ≤ INT_MAX

instance (v : Int) : Decidable (in_int_range v) := by
  unfold in_int_range; infer_instance

/-- Wrap a mathematical result into `int`, or fault on signed overflow. -/
def int_result (v : Int) : Exec Int :=
  if INT_MIN ≤ v ∧ v ≤ INT_MAX then Exec.ok v else Exec.fault Fault.signed_overflow

/-- The C++ expression `a * b` on `int`. -/
def int_mul (a b : Int) : Exec Int := int_result (a * b)

/-- The C++ expression `a + b` on `int`. -/
def int_add (a b : Int) : Exec Int := int_result (a + b)

/-- The C++ expression `a / b` on `int`: division truncating towards zero. -/
def int_div (a b : Int) : Exec Int :=
  if b = 0 then Exec.fault Fault.div_by_zero else int_result (Int.tdiv a b)

/-- The C++ expression `a % b` on `int`: remainder of the truncating division. -/
def int_mod (a b : Int) : Exec Int :=
  if b = 0 then Exec.fault Fault.div_by_zero
  else if a = INT_MIN ∧ b = -1 then Exec.fault Fault.signed_overflow
  else Exec.ok (Int.tmod a b)

/-- One more than the largest `size_t`. -/
def SIZE_MOD : Nat := 18446744073709551616

/-- The conversion `(size_t)v` of an `int`. -/
def to_size_t (v : Int) : Nat := (v % (SIZE_MOD : Int)).toNat

/-- The C++ expression `a * b` on `size_t`. -/
def size_mul (a b : Nat) : Nat := (a * b) % SIZE_MOD

/-- The C++ expression `a + b` on `size_t`. -/
def size_add (a b : Nat) : Nat := (a + b) % SIZE_MOD

/-! ## Vectors and counted loops -/

/-- The assignment `v[i] = a` on a `std::vector`. -/
def vec_set {α : Type} (v : List α) (i : Nat) (a : α) : Exec (List α) :=
  if i < v.length then Exec.ok (v.set i a) else Exec.fault Fault.out_of_range

/-- The loop `for (int i = i0; i < i0 + n; ++i) s = body(i, s)`, with `n` the number
of iterations that remain. -/
def for_loop {σ : Type} (body : Int → σ → Exec σ) : Nat → Int → σ → Exec σ
  | 0, _, s => Exec.ok s
  | n + 1, i, s =>
    match body i s with
    | Exec.ok s1 => for_loop body n (i + 1) s1
    | Exec.fault f => Exec.fault f

/-! ## `build_interleave_columns_map` -/

/-- Body of the inner loop of `build_interleave_columns_map` (lines 35-38). -/
def store_phys (W LANES lane_w lane_pixels y x : Int) (map : List Int) : Exec (List Int) := do
  let lane ← int_mod x LANES
  let xl ← int_div x LANES
  let a ← int_mul lane lane_pixels
  let b ← int_mul y lane_w
  let c ← int_add a b
  let phys ← int_add c xl
  let i ← int_mul y W
  let idx ← int_add i x
  if idx < 0 then Exec.fault Fault.out_of_range else vec_set map idx.toNat phys

/-- The function `build_interleave_columns_map(W, H, LANES)` (lines 27-42).  A negative
`W * H` converts to a `size_t` above the vector's `max_size()`, and `resize` throws. -/
def build_interleave_columns_map (W H LANES : Int) : Exec (List Int) := do
  let lane_w ← int_div W LANES
  let wh ← int_mul W H
  let lane_pixels ← int_div wh LANES
  let n ← int_mul W H
  if n < 0 then Exec.fault Fault.cpp_exception else
  let map : List Int := List.replicate n.toNat 0
  for_loop (fun y m => for_loop (fun x m1 => store_phys W LANES lane_w lane_pixels y x m1) W.toNat 0 m)
    H.toNat 0 map

/-! ## The ABI types (`piomatter_abi.h`) and the device -/

/-- The type `uint8_t`. -/
abbrev Byte := Fin 256

/-- The struct `pm_config`. -/
structure pm_config where
  width : Int
  height : Int
  n_addr_lines : Int
  lanes : Int
  brightness_0_255 : Int
  fps_cap : Int
  deriving DecidableEq, Repr

/-- The arguments from which a `piomatter::matrix_geometry` is constructed (lines 87-95).
`S` is the type of the dither schedules of the external library. -/
structure matrix_geometry (S : Type) where
  pixels_across : Nat
  n_addr_lines : Nat
  width : Nat
  height : Nat
  map : List Int
  n_lanes : Nat
  schedules : S
  deriving DecidableEq, Repr

/-- The arguments from which the `piomatter::piomatter` core is constructed (lines 99-102):
the extent of the span over the framebuffer, and the geometry. -/
structure piomatter_core (S : Type) where
  span_size : Nat
  geometry : matrix_geometry S
  deriving DecidableEq, Repr

/-- The external piomatter library, of which the repository has no implementation: it is a
parameter of the model.  A constructor or function that throws answers `none` or `false`. -/
structure piomatter_lib (S : Type) where
  make_temporal_dither_schedule : Nat → Nat → Nat → Option S
  geometry_constructs : matrix_geometry S → Bool
  core_constructs : piomatter_core S → Bool
  core_show : piomatter_core S → List Byte → Int

/-- The struct `pm_device` (lines 48-61). -/
structure pm_device (S : Type) where
  cfg : pm_config
  stride : Int
  bpp : Int
  fb : List Byte
  geom : Option (matrix_geometry S)
  dev : Option (piomatter_core S)
  deriving DecidableEq, Repr

/-- The `try` block of `pm_open` (lines 78-102), run on the device `d` under construction. -/
def pm_open_try {S : Type} (lib : piomatter_lib S) (d : pm_device S) : Exec (pm_device S) := do
  let map ← build_interleave_columns_map d.cfg.width d.cfg.height d.cfg.lanes
  let pixels_across := to_size_t d.cfg.width
  match lib.make_temporal_dither_schedule 10 pixels_across 0 with
  | none => Exec.fault Fault.cpp_exception
  | some sched =>
    let geom : matrix_geometry S :=
      { pixels_across := pixels_across
        n_addr_lines := to_size_t d.cfg.n_addr_lines
        width := to_size_t d.cfg.width
        height := to_size_t d.cfg.height
        map := map
        n_lanes := to_size_t d.cfg.lanes
        schedules := sched }
    if lib.geometry_constructs geom = false then Exec.fault Fault.cpp_exception else
    let core : piomatter_core S := { span_size := d.fb.length, geometry := geom }
    if lib.core_constructs core = false then Exec.fault Fault.cpp_exception else
    Exec.ok { d with geom := some geom, dev := some core }

/-- The function `pm_open` (lines 69-113).  `catch (...)` turns a C++ exception into a null
result; undefined behaviour is not an exception and is not caught. -/
def pm_open {S : Type} (lib : piomatter_lib S) (cfg_in : Option pm_config) :
    Exec (Option (pm_device S)) :=
  match cfg_in with
  | none => Exec.ok none
  | some cfg =>
    if cfg.width ≤ 0 ∨ cfg.height ≤ 0 then Exec.ok none else
    match int_mul cfg.width 3 with
    | Exec.fault f => Exec.fault f
    | Exec.ok stride =>
      let d : pm_device S :=
        { cfg := cfg
          stride := stride
          bpp := 24
          fb := List.replicate (size_mul (to_size_t cfg.height) (to_size_t stride)) 0
          geom := none
          dev := none }
      match pm_open_try lib d with
      | Exec.ok d1 => Exec.ok (some d1)
      | Exec.fault Fault.cpp_exception => Exec.ok none
      | Exec.fault f => Exec.fault f

/-- The function `pm_set_brightness` (lines 126-133): the status and the device afterwards. -/
def pm_set_brightness {S : Type} (dev : Option (pm_device S)) (value_0_255 : Int) :
    Int × Option (pm_device S) :=
  match dev with
  | none => (-1, none)
  | some d =>
    let v1 := if value_0_255 < 0 then 0 else value_0_255
    let v2 := if v1 > 255 then 255 else v1
    (0, some { d with cfg := { d.cfg with brightness_0_255 := v2 } })

/-- The function `pm_swap_buffers` (lines 135-140). -/
def pm_swap_buffers {S : Type} (lib : piomatter_lib S) (dev : Option (pm_device S)) : Int :=
  match dev with
  | none => -1
  | some d =>
    match d.dev with
    | none => -1
    | some core => lib.core_show core d.fb

/-- What `pm_map_framebuffer` hands back: the returned pointer, as the storage it points at
(`none` is `nullptr`), and the four `int` objects behind the out-pointers after the call
(`none` where the pointer passed in was null). -/
structure fb_mapping where
  data : Option (List Byte)
  out_w : Option Int
  out_h : Option Int
  out_stride_bytes : Option Int
  out_bpp : Option Int
  deriving DecidableEq, Repr

/-- The function `pm_map_framebuffer` (lines 142-151).  Each out-pointer is given as the `int`
it points at, `none` for a null pointer. -/
def pm_map_framebuffer {S : Type} (dev : Option (pm_device S))
    (out_w out_h out_stride_bytes out_bpp : Option Int) : fb_mapping :=
  match dev with
  | none =>
    { data := none, out_w := out_w, out_h := out_h,
      out_stride_bytes := out_stride_bytes, out_bpp := out_bpp }
  | some d =>
    { data := some d.fb
      out_w := out_w.map (fun _ => d.cfg.width)
      out_h := out_h.map (fun _ => d.cfg.height)
      out_stride_bytes := out_stride_bytes.map (fun _ => d.stride)
      out_bpp := out_bpp.map (fun _ => d.bpp) }

/-- The function `pm_put_pixel` (lines 153-161): the status and the device afterwards. -/
def pm_put_pixel {S : Type} (dev : Option (pm_device S)) (x y : Int) (r g b : Byte) :
    Exec (Int × Option (pm_device S)) :=
  match dev with
  | none => Exec.ok (-1, none)
  | some d =>
    if x < 0 ∨ y < 0 ∨ x ≥ d.cfg.width ∨ y ≥ d.cfg.height then Exec.ok (-2, some d) else
    let off := size_add (size_mul (to_size_t y) (to_size_t d.stride)) (size_mul (to_size_t x) 3)
    do
      let fb1 ← vec_set d.fb (size_add off 0) r
      let fb2 ← vec_set fb1 (size_add off 1) g
      let fb3 ← vec_set fb2 (size_add off 2) b
      Exec.ok (0, some { d with fb := fb3 })

/-! ## Handles across calls, and `pm_close` -/

/-- The value of a `pm_device*` that a caller holds, with what it points at: `nullptr`, a
device that `pm_open` returned and that is still allocated, or the storage of a device that
`pm_close` has deleted. -/
inductive pm_handle (S : Type) where
  | null
  | live (d : pm_device S)
  | dangling
  deriving DecidableEq, Repr

/-- The handle a caller holds for the pointer that a function returned. -/
def pm_handle.of_ptr {S : Type} (dev : Option (pm_device S)) : pm_handle S :=
  match dev with
  | none => pm_handle.null
  | some d => pm_handle.live d

/-- The function `pm_close` (lines 115-124), as the handle of the caller afterwards.  The
pointer is passed by value: a null pointer returns at once; otherwise the engine objects are
reset and the device is deleted, and the pointer of the caller keeps its non-null value.
Closing an already deleted device reads and deletes freed storage. -/
def pm_close {S : Type} (dev : pm_handle S) : Exec (pm_handle S) :=
  match dev with
  | pm_handle.null => Exec.ok pm_handle.null
  | pm_handle.live _ => Exec.ok pm_handle.dangling
  | pm_handle.dangling => Exec.fault Fault.use_after_free

/-- What a function of the ABI finds behind the handle it is given: the test `!dev` sees a
null pointer only for `pm_handle.null`; a dangling pointer is non-null, passes the test, and
the first access `dev->...` that follows on every path reads freed storage. -/
def pm_handle.deref {S : Type} (dev : pm_handle S) : Exec (Option (pm_device S)) :=
  match dev with
  | pm_handle.null => Exec.ok none
  | pm_handle.live d => Exec.ok (some d)
  | pm_handle.dangling => Exec.fault Fault.use_after_free

/-- The call `pm_set_brightness(dev, value)` on a handle: the status and the handle
afterwards. -/
def pm_set_brightness_at {S : Type} (dev : pm_handle S) (value_0_255 : Int) :
    Exec (Int × pm_handle S) := do
  let target ← dev.deref
  let res := pm_set_brightness target value_0_255
  Exec.ok (res.1, pm_handle.of_ptr res.2)

/-- The call `pm_swap_buffers(dev)` on a handle. -/
def pm_swap_buffers_at {S : Type} (lib : piomatter_lib S) (dev : pm_handle S) : Exec Int := do
  let target ← dev.deref
  Exec.ok (pm_swap_buffers lib target)

/-- The call `pm_map_framebuffer(dev, ...)` on a handle. -/
def pm_map_framebuffer_at {S : Type} (dev : pm_handle S)
    (out_w out_h out_stride_bytes out_bpp : Option Int) : Exec fb_mapping := do
  let target ← dev.deref
  Exec.ok (pm_map_framebuffer target out_w out_h out_stride_bytes out_bpp)

/-- The call `pm_put_pixel(dev, x, y, r, g, b)` on a handle: the status and the handle
afterwards. -/
def pm_put_pixel_at {S : Type} (dev : pm_handle S) (x y : Int) (r g b : Byte) :
    Exec (Int × pm_handle S) := do
  let target ← dev.deref
  let res ← pm_put_pixel target x y r g b
  Exec.ok (res.1, pm_handle.of_ptr res.2)

/-! ## Specification-side notions -/

/-- The physical index the specification gives for the logical pixel `(x, y)`. -/
def phys_index (width height lanes x y : Int) : Int :=
  (x % lanes) * ((width * height) / lanes) + y * (width / lanes) + x / lanes

/-- A table is a permutation of `[0, n)`: every entry lies in the range, and every index of
the range occurs exactly once. -/
def is_permutation_of_range (t : List Int) (n : Int) : Prop :=
  (∀ v ∈ t, 0 ≤ v ∧ v < n) ∧ (∀ p : Int, 0 ≤ p → p < n → t.count p = 1)

/-- The invariant of a device that `pm_open` has returned: the `int` fields hold `int`
values, the stride is `width * 3`, and the framebuffer has `height * width * 3` bytes. -/
def is_open {S : Type} (d : pm_device S) : Prop :=
  in_int_range d.cfg.width ∧ in_int_range d.cfg.height ∧ in_int_range d.stride ∧
  d.stride = d.cfg.width * 3 ∧ (d.fb.length : Int) = d.cfg.height * d.cfg.width * 3

/-- The entry of the specified table at the row-major position `i`, as a natural number: the
physical index of the logical pixel `(i mod W, i div W)`. -/
def entry_nat (W H L i : Nat) : Nat :=
  i % W % L * (W * H / L) + i / W * (W / L) + i % W / L

/-- The entry of the specified table at the row-major position `i`. -/
def table_entry (W H L i : Nat) : Int := ((entry_nat W H L i : Nat) : Int)

/-- The table the specification describes: entry `i` is the physical index of the logical
pixel `(i mod W, i div W)`. -/
def spec_table (W H L : Nat) : List Int :=
  (List.range (W * H)).map (table_entry W H L)

/-- Loop invariant of `build_interleave_columns_map`: the table has its final length and its
first `j` entries are final. -/
def filled (W H L j : Nat) (m : List Int) : Prop :=
  m.length = W * H ∧ ∀ i : Nat, i < j → m[i]? = some (table_entry W H L i)

instance {S : Type} (d : pm_device S) : Decidable (is_open d) := by
  unfold is_open; infer_instance

/-! ## Sample values -/

/-- An engine whose constructors all succeed and whose show operation reports 0. -/
def sample_lib : piomatter_lib Unit :=
  { make_temporal_dither_schedule := fun _ _ _ => some ()
    geometry_constructs := fun _ => true
    core_constructs := fun _ => true
    core_show := fun _ _ => 0 }

/-- A configuration of a panel two pixels wide and one pixel high, with one lane. -/
def sample_cfg : pm_config :=
  { width := 2, height := 1, n_addr_lines := 5, lanes := 1, brightness_0_255 := 255, fps_cap := 0 }

/-- The geometry that `pm_open` builds for `sample_cfg`. -/
def sample_geometry : matrix_geometry Unit :=
  { pixels_across := 2, n_addr_lines := 5, width := 2, height := 1, map := [0, 1], n_lanes := 1,
    schedules := () }

/-- The device that `pm_open` returns for `sample_cfg` on `sample_lib`. -/
def sample_device : pm_device Unit :=
  { cfg := sample_cfg
    stride := 6
    bpp := 24
    fb := [0, 0, 0, 0, 0, 0]
    geom := some sample_geometry
    dev := some { span_size := 6, geometry := sample_geometry } }

/-! ## Status codes, null handles and rejected configurations -/

/-- C5. For every non-null device and every integer `v`, `pm_set_brightness` returns 0 and
stores `min 255 (max 0 v)` as the brightness, the rest of the device being unchanged; so
`-5` stores 0, `300` stores 255 and `128` stores 128. -/
theorem set_brightness_clamps {S : Type} (d : pm_device S) (v : Int) :
    pm_set_brightness (some d) v
        = (0, some { d with cfg := { d.cfg with brightness_0_255 := min 255 (max 0 v) } }) ∧
      (pm_set_brightness (some d) (-5)).2.map (fun d1 => d1.cfg.brightness_0_255) = some 0 ∧
      (pm_set_brightness (some d) 300).2.map (fun d1 => d1.cfg.brightness_0_255) = some 255 ∧
      (pm_set_brightness (some d) 128).2.map (fun d1 => d1.cfg.brightness_0_255) = some 128 := by
  refine ⟨?_, by simp [pm_set_brightness], by simp [pm_set_brightness], by simp [pm_set_brightness]⟩
  unfold pm_set_brightness
  have h : (if (if v < 0 then 0 else v) > 255 then 255 else (if v < 0 then 0 else v))
      = min 255 (max 0 v) := by
    by_cases h1 : v < 0
    · have h2 : max 0 v = 0 := max_eq_left (le_of_lt h1)
      simp [h1, h2]
    · have h2 : max 0 v = v := max_eq_right (not_lt.mp h1)
      simp only [h1, if_false, h2]
      by_cases h3 : v > 255
      · simp [h3, min_eq_left (le_of_lt h3)]
      · simp [h3, min_eq_right (not_lt.mp h3)]
  simp only [h]

/-- C6 (amended). On a null device handle `pm_set_brightness`, `pm_swap_buffers` and
`pm_put_pixel` return -1 and `pm_map_framebuffer` returns null, for all other arguments (for
`pm_put_pixel` also when `(x, y)` is out of bounds); no device and no out-parameter is
touched, and `pm_close` of a null handle does nothing.  The guarantee is for null handles:
a handle that `pm_close` has closed is not null. -/
theorem null_handle_invalid {S : Type} (lib : piomatter_lib S) (v x y : Int) (r g b : Byte)
    (out_w out_h out_stride_bytes out_bpp : Option Int) :
    (pm_set_brightness (none : Option (pm_device S)) v = (-1, none) ∧
      pm_swap_buffers lib none = -1 ∧
      pm_put_pixel (none : Option (pm_device S)) x y r g b = Exec.ok (-1, none) ∧
      pm_map_framebuffer (none : Option (pm_device S)) out_w out_h out_stride_bytes out_bpp
        = { data := none, out_w := out_w, out_h := out_h,
            out_stride_bytes := out_stride_bytes, out_bpp := out_bpp }) ∧
    (pm_set_brightness_at (pm_handle.null : pm_handle S) v = Exec.ok (-1, pm_handle.null) ∧
      pm_swap_buffers_at lib pm_handle.null = Exec.ok (-1) ∧
      pm_put_pixel_at (pm_handle.null : pm_handle S) x y r g b = Exec.ok (-1, pm_handle.null) ∧
      pm_map_framebuffer_at (pm_handle.null : pm_handle S) out_w out_h out_stride_bytes out_bpp
        = Exec.ok { data := none, out_w := out_w, out_h := out_h,
                    out_stride_bytes := out_stride_bytes, out_bpp := out_bpp } ∧
      pm_close (pm_handle.null : pm_handle S) = Exec.ok pm_handle.null) :=
  ⟨⟨rfl, rfl, rfl, rfl⟩, ⟨rfl, rfl, rfl, rfl, rfl⟩⟩

/-- After `pm_close` of a live device the handle of the caller is dangling, not null, and
each of the four operations on it reads freed storage instead of returning -1 or null. -/
theorem closed_handle_faults {S : Type} (lib : piomatter_lib S) (d : pm_device S) (v x y : Int)
    (r g b : Byte) (out_w out_h out_stride_bytes out_bpp : Option Int) :
    pm_close (pm_handle.live d) = Exec.ok pm_handle.dangling ∧
      (pm_handle.dangling : pm_handle S) ≠ pm_handle.null ∧
      pm_set_brightness_at (pm_handle.dangling : pm_handle S) v
        = Exec.fault Fault.use_after_free ∧
      pm_swap_buffers_at lib pm_handle.dangling = Exec.fault Fault.use_after_free ∧
      pm_put_pixel_at (pm_handle.dangling : pm_handle S) x y r g b
        = Exec.fault Fault.use_after_free ∧
      pm_map_framebuffer_at (pm_handle.dangling : pm_handle S) out_w out_h out_stride_bytes
        out_bpp = Exec.fault Fault.use_after_free :=
  ⟨rfl, fun h => pm_handle.noConfusion h, rfl, rfl, rfl, rfl⟩

/-- C6 as stated fails: the handle of the sample device, once closed by `pm_close`, is not
answered with -1 or null by the four operations. -/
theorem closed_handle_not_rejected :
    ¬ (∀ (h0 h : pm_handle Unit) (v x y : Int) (r g b : Byte), pm_close h0 = Exec.ok h →
        (∃ h1, pm_set_brightness_at h v = Exec.ok (-1, h1)) ∧
        pm_swap_buffers_at sample_lib h = Exec.ok (-1) ∧
        (∃ h1, pm_put_pixel_at h x y r g b = Exec.ok (-1, h1)) ∧
        (∃ m, pm_map_framebuffer_at h none none none none = Exec.ok m ∧ m.data = none)) := by
  intro hall
  obtain ⟨_, hswap, _, _⟩ :=
    hall (pm_handle.live sample_device) pm_handle.dangling 0 0 0 0 0 0 rfl
  exact Exec.noConfusion hswap

/-- C7. For every configuration with `width ≤ 0` or `height ≤ 0`, and for a null
configuration, `pm_open` returns null, whatever the other fields and whatever the engine. -/
theorem pm_open_rejects_bad_size {S : Type} (lib : piomatter_lib S) (cfg : pm_config)
    (h : cfg.width ≤ 0 ∨ cfg.height ≤ 0) :
    pm_open lib (some cfg) = Exec.ok none ∧ pm_open lib none = Exec.ok none := by
  constructor
  · simp only [pm_open, h, if_true]
  · rfl

/-- Witness for C7: a configuration of width 0. -/
theorem pm_open_rejects_bad_size_witness :
    ((0 : Int) ≤ 0 ∨ (64 : Int) ≤ 0) ∧
      pm_open sample_lib (some { width := 0, height := 64, n_addr_lines := 5, lanes := 0,
                                 brightness_0_255 := 255, fps_cap := 0 }) = Exec.ok none ∧
      pm_open sample_lib none = Exec.ok none :=
  ⟨by decide,
    pm_open_rejects_bad_size sample_lib
      { width := 0, height := 64, n_addr_lines := 5, lanes := 0, brightness_0_255 := 255,
        fps_cap := 0 } (by decide)⟩

/-- C4. For every non-null device and every `(x, y)` outside the panel, `pm_put_pixel`
returns -2, which differs from 0 and from -1, and leaves the whole device, framebuffer
included, as it was. -/
theorem put_pixel_out_of_bounds {S : Type} (d : pm_device S) (x y : Int) (r g b : Byte)
    (h : x < 0 ∨ x ≥ d.cfg.width ∨ y < 0 ∨ y ≥ d.cfg.height) :
    pm_put_pixel (some d) x y r g b = Exec.ok (-2, some d) ∧ (-2 : Int) ≠ 0 ∧ (-2 : Int) ≠ -1 := by
  have h1 : x < 0 ∨ y < 0 ∨ x ≥ d.cfg.width ∨ y ≥ d.cfg.height := by tauto
  refine ⟨?_, by decide, by decide⟩
  simp only [pm_put_pixel, h1, if_true]

/-- Witness for C4: the pixel `(2, 0)` on the sample device, which is two pixels wide. -/
theorem put_pixel_out_of_bounds_witness :
    ((2 : Int) < 0 ∨ (2 : Int) ≥ sample_device.cfg.width ∨ (0 : Int) < 0 ∨
        (0 : Int) ≥ sample_device.cfg.height) ∧
      pm_put_pixel (some sample_device) 2 0 7 8 9 = Exec.ok (-2, some sample_device) ∧
      (-2 : Int) ≠ 0 ∧ (-2 : Int) ≠ -1 :=
  ⟨by decide, put_pixel_out_of_bounds sample_device 2 0 7 8 9 (by decide)⟩

/-- C9 fails on the code. The configuration `width = 64`, `height = 64`, `lanes = 0` passes the
validity check of `pm_open`, and `build_interleave_columns_map` then evaluates `W / LANES`
with a zero divisor: undefined behaviour, which `catch (...)` does not intercept, whatever
the engine. -/
theorem pm_open_zero_lanes_divides_by_zero {S : Type} (lib : piomatter_lib S) :
    pm_open lib (some { width := 64, height := 64, n_addr_lines := 5, lanes := 0,
                        brightness_0_255 := 255, fps_cap := 0 })
      = Exec.fault Fault.div_by_zero := by
  rfl

/-- Every configuration that passes the validity check of `pm_open`, whose stride fits in
`int` and whose `lanes` is 0 ends in the division by zero, whatever the engine. -/
theorem pm_open_zero_lanes_always_faults {S : Type} (lib : piomatter_lib S) (cfg : pm_config)
    (hw : 0 < cfg.width) (hh : 0 < cfg.height) (hs : cfg.width * 3 ≤ INT_MAX)
    (hl : cfg.lanes = 0) :
    pm_open lib (some cfg) = Exec.fault Fault.div_by_zero := by
  have hc : ¬ (cfg.width ≤ 0 ∨ cfg.height ≤ 0) := by
    intro h
    rcases h with h | h <;> omega
  have hmul : int_mul cfg.width 3 = Exec.ok (cfg.width * 3) := by
    unfold int_mul int_result
    rw [if_pos]
    unfold INT_MIN
    constructor <;> omega
  have hbuild : build_interleave_columns_map cfg.width cfg.height cfg.lanes
      = Exec.fault Fault.div_by_zero := by
    rw [hl]
    simp [build_interleave_columns_map, int_div, bind, Exec.bind]
  simp only [pm_open, hc, if_false, hmul, pm_open_try, hbuild, bind, Exec.bind]

/-- The sample device is what `pm_open` returns for the sample configuration. -/
theorem pm_open_sample : pm_open sample_lib (some sample_cfg) = Exec.ok (some sample_device) := by
  decide

/-- A non-negative `int` converts to `size_t` unchanged. -/
theorem to_size_t_of_nat (n : Nat) (h : (n : Int) ≤ INT_MAX) : to_size_t (n : Int) = n := by
  unfold to_size_t
  have h1 : (n : Int) < (SIZE_MOD : Int) := by
    unfold INT_MAX at h; unfold SIZE_MOD; push_cast; omega
  rw [Int.emod_eq_of_lt (Int.ofNat_nonneg n) h1]
  exact Int.toNat_ofNat n

/-- For an open device and an in-bounds pixel, the `size_t` offset computed by `pm_put_pixel`
is `y * stride + x * 3` without wrap-around, and the pixel's three bytes lie inside the
framebuffer. -/
theorem put_pixel_offset {S : Type} (d : pm_device S) (hd : is_open d) (x y : Int)
    (hx0 : 0 ≤ x) (hx : x < d.cfg.width) (hy0 : 0 ≤ y) (hy : y < d.cfg.height) :
    size_add (size_mul (to_size_t y) (to_size_t d.stride)) (size_mul (to_size_t x) 3)
        = (y * d.stride + x * 3).toNat ∧
      (y * d.stride + x * 3).toNat + 2 < d.fb.length ∧ d.fb.length < SIZE_MOD := by
  obtain ⟨⟨_, hw⟩, ⟨_, hh⟩, ⟨_, hs⟩, hst, hlen⟩ := hd
  obtain ⟨X, rfl⟩ := Int.eq_ofNat_of_zero_le hx0
  obtain ⟨Y, rfl⟩ := Int.eq_ofNat_of_zero_le hy0
  obtain ⟨Wn, hWn⟩ := Int.eq_ofNat_of_zero_le (le_trans hx0 (le_of_lt hx))
  obtain ⟨Hn, hHn⟩ := Int.eq_ofNat_of_zero_le (le_trans hy0 (le_of_lt hy))
  rw [hWn] at hx hw hst hlen
  rw [hHn] at hy hh hlen
  have hst2 : d.stride = ((Wn * 3 : Nat) : Int) := by rw [hst]; push_cast; ring
  rw [hst2] at hs ⊢
  have hXW : X < Wn := by exact_mod_cast hx
  have hYH : Y < Hn := by exact_mod_cast hy
  have hlenN : d.fb.length = Hn * Wn * 3 := by exact_mod_cast hlen
  have hHb : Hn ≤ 2147483647 := by unfold INT_MAX at hh; exact_mod_cast hh
  have hSb : Wn * 3 ≤ 2147483647 := by unfold INT_MAX at hs; exact_mod_cast hs
  have hX : to_size_t (X : Int) = X := to_size_t_of_nat X (by unfold INT_MAX; omega)
  have hY : to_size_t (Y : Int) = Y := to_size_t_of_nat Y (by unfold INT_MAX; omega)
  have hS : to_size_t ((Wn * 3 : Nat) : Int) = Wn * 3 := to_size_t_of_nat _ hs
  have hrow : Y * (Wn * 3) + Wn * 3 ≤ Hn * Wn * 3 := by
    have : (Y + 1) * (Wn * 3) ≤ Hn * (Wn * 3) := Nat.mul_le_mul_right _ hYH
    nlinarith
  have hbig : Hn * (Wn * 3) ≤ 2147483647 * 2147483647 := Nat.mul_le_mul hHb hSb
  have htn : ((Y : Int) * ((Wn * 3 : Nat) : Int) + (X : Int) * 3).toNat = Y * (Wn * 3) + X * 3 := by
    have : (Y : Int) * ((Wn * 3 : Nat) : Int) + (X : Int) * 3 = ((Y * (Wn * 3) + X * 3 : Nat) : Int) := by
      push_cast; ring
    rw [this]; exact Int.toNat_ofNat _
  rw [hX, hY, hS, htn, hlenN]
  have hM : SIZE_MOD = 18446744073709551616 := rfl
  have hoff : Y * (Wn * 3) + X * 3 + 3 ≤ Hn * Wn * 3 := by omega
  have hb2 : Hn * Wn * 3 ≤ 2147483647 * 2147483647 := by
    calc Hn * Wn * 3 = Hn * (Wn * 3) := by ring
      _ ≤ 2147483647 * 2147483647 := hbig
  have e1 : size_mul Y (Wn * 3) = Y * (Wn * 3) := by
    unfold size_mul
    apply Nat.mod_eq_of_lt
    omega
  have e2 : size_mul X 3 = X * 3 := by
    unfold size_mul
    apply Nat.mod_eq_of_lt
    omega
  rw [e1, e2]
  refine ⟨?_, by omega, by omega⟩
  unfold size_add
  apply Nat.mod_eq_of_lt
  omega

/-- For an open device and an in-bounds pixel, `pm_put_pixel` succeeds and stores the three
bytes at `y * stride + x * 3`, which lie inside the framebuffer. -/
theorem put_pixel_in_bounds {S : Type} (d : pm_device S) (hd : is_open d) (x y : Int)
    (hx0 : 0 ≤ x) (hx : x < d.cfg.width) (hy0 : 0 ≤ y) (hy : y < d.cfg.height) (r g b : Byte) :
    pm_put_pixel (some d) x y r g b
        = Exec.ok (0, some { d with fb := ((d.fb.set (y * d.stride + x * 3).toNat r).set
            ((y * d.stride + x * 3).toNat + 1) g).set ((y * d.stride + x * 3).toNat + 2) b }) ∧
      (y * d.stride + x * 3).toNat + 2 < d.fb.length := by
  obtain ⟨hoff, hin, hsz⟩ := put_pixel_offset d hd x y hx0 hx hy0 hy
  refine ⟨?_, hin⟩
  have hc : ¬ (x < 0 ∨ y < 0 ∨ x ≥ d.cfg.width ∨ y ≥ d.cfg.height) := by
    intro h
    rcases h with h | h | h | h <;> omega
  have a0 : size_add (y * d.stride + x * 3).toNat 0 = (y * d.stride + x * 3).toNat := by
    unfold size_add; apply Nat.mod_eq_of_lt; omega
  have a1 : size_add (y * d.stride + x * 3).toNat 1 = (y * d.stride + x * 3).toNat + 1 := by
    unfold size_add; apply Nat.mod_eq_of_lt; omega
  have a2 : size_add (y * d.stride + x * 3).toNat 2 = (y * d.stride + x * 3).toNat + 2 := by
    unfold size_add; apply Nat.mod_eq_of_lt; omega
  have l0 : (y * d.stride + x * 3).toNat < d.fb.length := by omega
  have l1 : (y * d.stride + x * 3).toNat + 1
      < (d.fb.set (y * d.stride + x * 3).toNat r).length := by
    rw [List.length_set]; omega
  have l2 : (y * d.stride + x * 3).toNat + 2
      < ((d.fb.set (y * d.stride + x * 3).toNat r).set
          ((y * d.stride + x * 3).toNat + 1) g).length := by
    rw [List.length_set, List.length_set]; omega
  simp only [pm_put_pixel, hc, if_false, hoff, a0, a1, a2, vec_set, bind, Exec.bind, l0, l1, l2,
    if_true]

/-- Row-major indices are unique: `y * W + x` with `0 ≤ x < W` determines `x` and `y`. -/
theorem flat_index_inj (W x y x1 y1 : Int) (hx0 : 0 ≤ x) (hx : x < W) (hx10 : 0 ≤ x1)
    (hx1 : x1 < W) (h : y * W + x = y1 * W + x1) : x = x1 ∧ y = y1 := by
  have hy : y = y1 := by
    rcases lt_trichotomy y y1 with hlt | heq | hgt
    · exfalso
      have h1 : (y + 1) * W ≤ y1 * W := by
        apply mul_le_mul_of_nonneg_right _ (by omega)
        omega
      have h2 : (y + 1) * W = y * W + W := by ring
      omega
    · exact heq
    · exfalso
      have h1 : (y1 + 1) * W ≤ y * W := by
        apply mul_le_mul_of_nonneg_right _ (by omega)
        omega
      have h2 : (y1 + 1) * W = y1 * W + W := by ring
      omega
  subst hy
  exact ⟨by omega, rfl⟩

/-- C3. For every open device (framebuffer of `height * width * 3` bytes, stride `width * 3`),
every in-bounds `(x, y)` and all bytes `r`, `g`, `b`: `pm_put_pixel` returns 0, and the view
that `pm_map_framebuffer` then returns, whose reported stride is `width * 3`, reads `r`, `g`,
`b` at the offsets `y * stride + x * 3 + 0`, `+ 1` and `+ 2`. -/
theorem put_pixel_then_map_reads_back {S : Type} (d : pm_device S) (hd : is_open d) (x y : Int)
    (hx0 : 0 ≤ x) (hx : x < d.cfg.width) (hy0 : 0 ≤ y) (hy : y < d.cfg.height) (r g b : Byte)
    (out_w out_h out_stride_bytes out_bpp : Option Int) :
    ∃ d1 : pm_device S, pm_put_pixel (some d) x y r g b = Exec.ok (0, some d1) ∧
      ∃ view : List Byte,
        (pm_map_framebuffer (some d1) out_w out_h out_stride_bytes out_bpp).data = some view ∧
        (pm_map_framebuffer (some d1) out_w out_h out_stride_bytes out_bpp).out_stride_bytes
          = out_stride_bytes.map (fun _ => d.cfg.width * 3) ∧
        view[(y * (d.cfg.width * 3) + x * 3).toNat + 0]? = some r ∧
        view[(y * (d.cfg.width * 3) + x * 3).toNat + 1]? = some g ∧
        view[(y * (d.cfg.width * 3) + x * 3).toNat + 2]? = some b := by
  obtain ⟨hput, hin⟩ := put_pixel_in_bounds d hd x y hx0 hx hy0 hy r g b
  have hst : d.stride = d.cfg.width * 3 := hd.2.2.2.1
  rw [← hst]
  refine ⟨_, hput, _, rfl, rfl, ?_, ?_, ?_⟩
  · simp only [List.getElem?_set, List.length_set, Nat.add_zero]
    have l0 : (y * d.stride + x * 3).toNat < d.fb.length := by omega
    simp [l0]
  · simp only [List.getElem?_set, List.length_set]
    have l1 : (y * d.stride + x * 3).toNat + 1 < d.fb.length := by omega
    simp [l1]
  · simp only [List.getElem?_set, List.length_set]
    have l2 : (y * d.stride + x * 3).toNat + 2 < d.fb.length := by omega
    simp [l2]

/-- Witness for C3: the pixel `(1, 0)` of the sample device. -/
theorem put_pixel_then_map_reads_back_witness :
    is_open sample_device ∧ (0 : Int) ≤ 1 ∧ (1 : Int) < sample_device.cfg.width ∧
      (0 : Int) ≤ 0 ∧ (0 : Int) < sample_device.cfg.height ∧
      ∃ d1 : pm_device Unit, pm_put_pixel (some sample_device) 1 0 7 8 9 = Exec.ok (0, some d1) ∧
        ∃ view : List Byte,
          (pm_map_framebuffer (some d1) none none (some 0) none).data = some view ∧
          (pm_map_framebuffer (some d1) none none (some 0) none).out_stride_bytes
            = (some (0 : Int)).map (fun _ => sample_device.cfg.width * 3) ∧
          view[((0 : Int) * (sample_device.cfg.width * 3) + 1 * 3).toNat + 0]? = some 7 ∧
          view[((0 : Int) * (sample_device.cfg.width * 3) + 1 * 3).toNat + 1]? = some 8 ∧
          view[((0 : Int) * (sample_device.cfg.width * 3) + 1 * 3).toNat + 2]? = some 9 :=
  ⟨by decide, by decide, by decide, by decide, by decide,
    put_pixel_then_map_reads_back sample_device (by decide) 1 0 (by decide) (by decide)
      (by decide) (by decide) 7 8 9 none none (some 0) none⟩

/-- C10. For every open device and every in-bounds `(x, y)`, `pm_put_pixel` changes only the
three bytes at the offsets `y * stride + x * 3 .. y * stride + x * 3 + 2`, which lie inside the
buffer: the configuration, stride, bpp and engine objects, the buffer length and every other
byte are unchanged, hence so are the three bytes of every other in-bounds pixel. -/
theorem put_pixel_frame {S : Type} (d : pm_device S) (hd : is_open d) (x y : Int)
    (hx0 : 0 ≤ x) (hx : x < d.cfg.width) (hy0 : 0 ≤ y) (hy : y < d.cfg.height) (r g b : Byte) :
    ∃ d1 : pm_device S, pm_put_pixel (some d) x y r g b = Exec.ok (0, some d1) ∧
      d1.cfg = d.cfg ∧ d1.stride = d.stride ∧ d1.bpp = d.bpp ∧ d1.geom = d.geom ∧
      d1.dev = d.dev ∧ d1.fb.length = d.fb.length ∧
      (y * d.stride + x * 3).toNat + 2 < d.fb.length ∧
      (∀ i : Nat, i ≠ (y * d.stride + x * 3).toNat → i ≠ (y * d.stride + x * 3).toNat + 1 →
        i ≠ (y * d.stride + x * 3).toNat + 2 → d1.fb[i]? = d.fb[i]?) ∧
      (∀ x1 y1 : Int, 0 ≤ x1 → x1 < d.cfg.width → 0 ≤ y1 → y1 < d.cfg.height →
        (x1, y1) ≠ (x, y) → ∀ k : Nat, k < 3 →
          d1.fb[(y1 * d.stride + x1 * 3).toNat + k]? = d.fb[(y1 * d.stride + x1 * 3).toNat + k]?) := by
  obtain ⟨hput, hin⟩ := put_pixel_in_bounds d hd x y hx0 hx hy0 hy r g b
  have hst : d.stride = d.cfg.width * 3 := hd.2.2.2.1
  have hother : ∀ i : Nat, i ≠ (y * d.stride + x * 3).toNat →
      i ≠ (y * d.stride + x * 3).toNat + 1 → i ≠ (y * d.stride + x * 3).toNat + 2 →
      (((d.fb.set (y * d.stride + x * 3).toNat r).set
        ((y * d.stride + x * 3).toNat + 1) g).set ((y * d.stride + x * 3).toNat + 2) b)[i]?
        = d.fb[i]? := by
    intro i h0 h1 h2
    rw [List.getElem?_set_ne (Ne.symm h2), List.getElem?_set_ne (Ne.symm h1),
      List.getElem?_set_ne (Ne.symm h0)]
  refine ⟨_, hput, rfl, rfl, rfl, rfl, rfl, ?_, hin, hother, ?_⟩
  · simp only [List.length_set]
  · intro x1 y1 hx10 hx1 hy10 hy1 hne k hk
    have hflat : y1 * d.cfg.width + x1 ≠ y * d.cfg.width + x := by
      intro h
      obtain ⟨e1, e2⟩ := flat_index_inj d.cfg.width x1 y1 x y hx10 hx1 hx0 hx h
      exact hne (by rw [e1, e2])
    have hy1w : 0 ≤ y1 * d.cfg.width := mul_nonneg hy10 (by omega)
    have hyw : 0 ≤ y * d.cfg.width := mul_nonneg hy0 (by omega)
    have e1 : y1 * d.stride + x1 * 3 = 3 * (y1 * d.cfg.width + x1) := by rw [hst]; ring
    have e : y * d.stride + x * 3 = 3 * (y * d.cfg.width + x) := by rw [hst]; ring
    apply hother <;> rw [e1, e] <;> omega

/-- Witness for C10: the pixel `(1, 0)` of the sample device. -/
theorem put_pixel_frame_witness :
    is_open sample_device ∧ (0 : Int) ≤ 1 ∧ (1 : Int) < sample_device.cfg.width ∧
      (0 : Int) ≤ 0 ∧ (0 : Int) < sample_device.cfg.height ∧
      ∃ d1 : pm_device Unit, pm_put_pixel (some sample_device) 1 0 7 8 9 = Exec.ok (0, some d1) ∧
        d1.cfg = sample_device.cfg ∧ d1.stride = sample_device.stride ∧
        d1.bpp = sample_device.bpp ∧ d1.geom = sample_device.geom ∧
        d1.dev = sample_device.dev ∧ d1.fb.length = sample_device.fb.length ∧
        ((0 : Int) * sample_device.stride + 1 * 3).toNat + 2 < sample_device.fb.length ∧
        (∀ i : Nat, i ≠ ((0 : Int) * sample_device.stride + 1 * 3).toNat →
          i ≠ ((0 : Int) * sample_device.stride + 1 * 3).toNat + 1 →
          i ≠ ((0 : Int) * sample_device.stride + 1 * 3).toNat + 2 →
          d1.fb[i]? = sample_device.fb[i]?) ∧
        (∀ x1 y1 : Int, 0 ≤ x1 → x1 < sample_device.cfg.width → 0 ≤ y1 →
          y1 < sample_device.cfg.height → (x1, y1) ≠ ((1 : Int), (0 : Int)) → ∀ k : Nat, k < 3 →
            d1.fb[(y1 * sample_device.stride + x1 * 3).toNat + k]?
              = sample_device.fb[(y1 * sample_device.stride + x1 * 3).toNat + k]?) :=
  ⟨by decide, by decide, by decide, by decide, by decide,
    put_pixel_frame sample_device (by decide) 1 0 (by decide) (by decide) (by decide)
      (by decide) 7 8 9⟩

/-! ## The device that `pm_open` returns -/

/-- The `try` block of `pm_open` attaches the engine objects and leaves the configuration,
the stride, the bpp and the framebuffer of the device as they are. -/
theorem pm_open_try_preserves {S : Type} (lib : piomatter_lib S) (d d1 : pm_device S)
    (h : pm_open_try lib d = Exec.ok d1) :
    d1.cfg = d.cfg ∧ d1.stride = d.stride ∧ d1.bpp = d.bpp ∧ d1.fb = d.fb := by
  unfold pm_open_try at h
  cases hb : build_interleave_columns_map d.cfg.width d.cfg.height d.cfg.lanes with
  | fault f => simp [hb, bind, Exec.bind] at h
  | ok map =>
    simp only [hb, bind, Exec.bind] at h
    split at h
    · exact absurd h (by simp)
    · split at h
      · exact absurd h (by simp)
      · split at h
        · exact absurd h (by simp)
        · have := Exec.ok.inj h
          subst this
          exact ⟨rfl, rfl, rfl, rfl⟩

/-- Every device that `pm_open` returns for a configuration of `int` fields satisfies the
invariant `is_open`, carries that configuration, and has 24 bits per pixel. -/
theorem pm_open_is_open {S : Type} (lib : piomatter_lib S) (cfg : pm_config)
    (hw : in_int_range cfg.width) (hh : in_int_range cfg.height) (d : pm_device S)
    (h : pm_open lib (some cfg) = Exec.ok (some d)) :
    is_open d ∧ d.cfg = cfg ∧ d.bpp = 24 := by
  unfold pm_open at h
  simp only at h
  split at h
  · exact absurd h (by simp)
  · rename_i hpos
    have hwpos : 0 < cfg.width := by
      by_contra hc; exact hpos (Or.inl (not_lt.mp hc))
    have hhpos : 0 < cfg.height := by
      by_contra hc; exact hpos (Or.inr (not_lt.mp hc))
    split at h
    · exact absurd h (by simp)
    · rename_i stride hstride
      have hs : stride = cfg.width * 3 ∧ in_int_range stride := by
        unfold int_mul int_result at hstride
        split at hstride
        · rename_i hin
          have := Exec.ok.inj hstride
          subst this
          exact ⟨rfl, hin⟩
        · exact absurd hstride (by simp)
      split at h
      · rename_i d1 htry
        have hd : d1 = d := Option.some.inj (Exec.ok.inj h)
        subst hd
        obtain ⟨c1, c2, c3, c4⟩ := pm_open_try_preserves lib _ _ htry
        simp only at c1 c2 c3 c4
        refine ⟨⟨by rw [c1]; exact hw, by rw [c1]; exact hh, by rw [c2]; exact hs.2,
          by rw [c1, c2]; exact hs.1, ?_⟩, c1, c3⟩
        rw [c4, c1, List.length_replicate]
        obtain ⟨hs1, hs2⟩ := hs
        subst hs1
        lift cfg.width to ℕ using hwpos.le with Wn hWn
        lift cfg.height to ℕ using hhpos.le with Hn hHn
        have e3 : ((Wn : Int) * 3) = ((Wn * 3 : Nat) : Int) := by push_cast; rfl
        rw [e3] at hs2 ⊢
        rw [to_size_t_of_nat Hn hh.2, to_size_t_of_nat (Wn * 3) hs2.2]
        have b1 : Hn ≤ 2147483647 := by have := hh.2; unfold INT_MAX at this; exact_mod_cast this
        have b2 : Wn * 3 ≤ 2147483647 := by
          have := hs2.2; unfold INT_MAX at this; exact_mod_cast this
        have b3 : Hn * (Wn * 3) ≤ 2147483647 * 2147483647 := Nat.mul_le_mul b1 b2
        have hM : SIZE_MOD = 18446744073709551616 := rfl
        unfold size_mul
        rw [Nat.mod_eq_of_lt (by omega)]
        push_cast
        ring
      · exact absurd h (by simp)
      · exact absurd h (by simp)
/-! ## The address map: arithmetic of one iteration -/

/-- The physical index of the logical pixel `(x, y)`, over the natural numbers. -/
theorem phys_index_nat (W H L x y : Nat) :
    phys_index (W : Int) (H : Int) (L : Int) (x : Int) (y : Int)
      = ((x % L * (W * H / L) + y * (W / L) + x / L : Nat) : Int) := by
  unfold phys_index
  push_cast
  rfl

theorem int_result_nat (n : Nat) (h : n ≤ 2147483647) : int_result (n : Int) = Exec.ok (n : Int) := by
  unfold int_result INT_MIN INT_MAX
  rw [if_pos]
  constructor <;> omega

theorem int_mul_nat (a b : Nat) (h : a * b ≤ 2147483647) :
    int_mul (a : Int) (b : Int) = Exec.ok ((a * b : Nat) : Int) := by
  unfold int_mul
  rw [← Nat.cast_mul]
  exact int_result_nat _ h

theorem int_add_nat (a b : Nat) (h : a + b ≤ 2147483647) :
    int_add (a : Int) (b : Int) = Exec.ok ((a + b : Nat) : Int) := by
  unfold int_add
  rw [← Nat.cast_add]
  exact int_result_nat _ h

theorem int_div_nat (a b : Nat) (hb : 0 < b) (h : a ≤ 2147483647) :
    int_div (a : Int) (b : Int) = Exec.ok ((a / b : Nat) : Int) := by
  unfold int_div
  have hb0 : ¬ ((b : Int) = 0) := by omega
  rw [if_neg hb0, ← Int.ofNat_tdiv]
  exact int_result_nat _ (le_trans (Nat.div_le_self a b) h)

theorem int_mod_nat (a b : Nat) (hb : 0 < b) :
    int_mod (a : Int) (b : Int) = Exec.ok ((a % b : Nat) : Int) := by
  unfold int_mod
  have hb0 : ¬ ((b : Int) = 0) := by omega
  have hb1 : ¬ ((a : Int) = INT_MIN ∧ (b : Int) = -1) := by
    intro h
    omega
  rw [if_neg hb0, if_neg hb1, ← Int.ofNat_tmod]

/-- The bounds that keep one iteration inside `int`: with `lp = W * H / L` and `lw = W / L`,
the lane offset, the row offset and their sums stay at most `W * H`. -/
theorem phys_bounds (W H L x y : Nat) (hL : 0 < L) (hx : x < W) (hy : y < H) :
    x % L * (W * H / L) + y * (W / L) + x / L ≤ L * (W * H / L) ∧
      L * (W * H / L) ≤ W * H := by
  have h1 : L * (W * H / L) ≤ W * H := Nat.mul_div_le _ _
  have h2 : x % L + 1 ≤ L := Nat.mod_lt x hL
  have h3 : x / L ≤ W / L := Nat.div_le_div_right (le_of_lt hx)
  have h4 : W / L * H ≤ W * H / L := by
    rw [Nat.le_div_iff_mul_le hL]
    calc W / L * H * L = W / L * L * H := by ring
      _ ≤ W * H := Nat.mul_le_mul_right H (Nat.div_mul_le_self W L)
  have h5 : (y + 1) * (W / L) ≤ H * (W / L) := Nat.mul_le_mul_right _ hy
  have h6 : (x % L + 1) * (W * H / L) ≤ L * (W * H / L) := Nat.mul_le_mul_right _ h2
  refine ⟨?_, h1⟩
  nlinarith

/-- One iteration of the inner loop, for in-range naturals whose product fits in `int`: it
stores the specified physical index at the row-major position of `(x, y)`. -/
theorem store_phys_nat (W H L x y : Nat) (hL : 0 < L) (hx : x < W) (hy : y < H)
    (hfit : W * H ≤ 2147483647) (map : List Int) (hlen : map.length = W * H) :
    store_phys (W : Int) (L : Int) ((W / L : Nat) : Int) ((W * H / L : Nat) : Int)
        (y : Int) (x : Int) map
      = Exec.ok (map.set (y * W + x)
          ((x % L * (W * H / L) + y * (W / L) + x / L : Nat) : Int)) := by
  obtain ⟨hb, hb1⟩ := phys_bounds W H L x y hL hx hy
  have hidx : y * W + x < W * H := by
    have : (y + 1) * W ≤ H * W := Nat.mul_le_mul_right _ hy
    nlinarith
  have e1 := int_mod_nat x L hL
  have e2 := int_div_nat x L hL (by omega)
  have hsum : x % L * (W * H / L) + y * (W / L) + x / L ≤ 2147483647 :=
    le_trans hb (le_trans hb1 hfit)
  have hab : x % L * (W * H / L) + y * (W / L) ≤ 2147483647 :=
    le_trans (Nat.le_add_right _ _) hsum
  have e3 := int_mul_nat (x % L) (W * H / L) (le_trans (Nat.le_add_right _ _) hab)
  have e4 := int_mul_nat y (W / L) (le_trans (Nat.le_add_left _ _) hab)
  have e5 := int_add_nat (x % L * (W * H / L)) (y * (W / L)) hab
  have e6 := int_add_nat (x % L * (W * H / L) + y * (W / L)) (x / L) hsum
  have e7 := int_mul_nat y W (by omega)
  have e8 := int_add_nat (y * W) x (by omega)
  have e9 : ¬ (((y * W + x : Nat) : Int) < 0) := by omega
  have e10 : y * W + x < map.length := by omega
  simp only [store_phys, bind, Exec.bind, e1, e2, e3, e4, e5, e6, e7, e8, e9, if_false,
    Int.toNat_ofNat, vec_set, e10, if_true]

/-! ## The address map: the two loops -/

theorem filled_step (W H L x y : Nat) (hx : x < W) (hy : y < H) (m : List Int)
    (hm : filled W H L (y * W + x) m) :
    filled W H L (y * W + (x + 1))
      (m.set (y * W + x) ((x % L * (W * H / L) + y * (W / L) + x / L : Nat) : Int)) := by
  obtain ⟨hlen, hget⟩ := hm
  have hidx : y * W + x < W * H := by
    have : (y + 1) * W ≤ H * W := Nat.mul_le_mul_right _ hy
    nlinarith
  refine ⟨by rw [List.length_set]; exact hlen, ?_⟩
  intro i hi
  by_cases h : i = y * W + x
  · subst h
    rw [List.getElem?_set_self (by omega)]
    have hW : 0 < W := by omega
    have m1 : (y * W + x) % W = x := by
      rw [Nat.add_comm, Nat.add_mul_mod_self_right]; exact Nat.mod_eq_of_lt hx
    have d1 : (y * W + x) / W = y := by
      rw [Nat.add_comm, Nat.add_mul_div_right _ _ hW, Nat.div_eq_of_lt hx]; simp
    simp only [table_entry, entry_nat, m1, d1]
  · rw [List.getElem?_set_ne (Ne.symm h)]
    exact hget i (by omega)

/-- The inner loop over `x`, started at `x0` with `k` iterations left, completes row `y`. -/
theorem inner_loop_fills (W H L y : Nat) (hL : 0 < L) (hy : y < H) (hfit : W * H ≤ 2147483647) :
    ∀ (k x0 : Nat) (m : List Int), x0 + k = W → filled W H L (y * W + x0) m →
      ∃ m1, for_loop (fun x m1 => store_phys (W : Int) (L : Int) ((W / L : Nat) : Int)
              ((W * H / L : Nat) : Int) (y : Int) x m1) k (x0 : Int) m = Exec.ok m1 ∧
            filled W H L ((y + 1) * W) m1 := by
  intro k
  induction k with
  | zero =>
    intro x0 m hk hm
    refine ⟨m, rfl, ?_⟩
    have : (y + 1) * W = y * W + x0 := by
      have : x0 = W := by omega
      rw [this]; ring
    rw [this]; exact hm
  | succ k ih =>
    intro x0 m hk hm
    have hx : x0 < W := by omega
    have hstep := store_phys_nat W H L x0 y hL hx hy hfit m hm.1
    obtain ⟨m1, h1, h2⟩ := ih (x0 + 1) _ (by omega) (filled_step W H L x0 y hx hy m hm)
    refine ⟨m1, ?_, h2⟩
    simp only [for_loop, hstep]
    have : ((x0 : Int) + 1) = ((x0 + 1 : Nat) : Int) := by push_cast; rfl
    rw [this]
    exact h1

/-- The outer loop over `y`, started at `y0` with `k` iterations left, completes the table. -/
theorem outer_loop_fills (W H L : Nat) (hL : 0 < L) (hfit : W * H ≤ 2147483647) :
    ∀ (k y0 : Nat) (m : List Int), y0 + k = H → filled W H L (y0 * W) m →
      ∃ m1, for_loop (fun y m => for_loop (fun x m1 => store_phys (W : Int) (L : Int)
              ((W / L : Nat) : Int) ((W * H / L : Nat) : Int) y x m1) W 0 m) k (y0 : Int) m
              = Exec.ok m1 ∧
            filled W H L (H * W) m1 := by
  intro k
  induction k with
  | zero =>
    intro y0 m hk hm
    refine ⟨m, rfl, ?_⟩
    have : H * W = y0 * W := by
      have : y0 = H := by omega
      rw [this]
    rw [this]; exact hm
  | succ k ih =>
    intro y0 m hk hm
    have hy : y0 < H := by omega
    obtain ⟨m0, hrow, hm0⟩ := inner_loop_fills W H L y0 hL hy hfit W 0 m (by omega) (by simpa using hm)
    obtain ⟨m1, h1, h2⟩ := ih (y0 + 1) m0 (by omega) hm0
    refine ⟨m1, ?_, h2⟩
    have hrow0 : for_loop (fun x m1 => store_phys (W : Int) (L : Int) ((W / L : Nat) : Int)
        ((W * H / L : Nat) : Int) (y0 : Int) x m1) W 0 m = Exec.ok m0 := by
      simpa using hrow
    simp only [for_loop, hrow0]
    have : ((y0 : Int) + 1) = ((y0 + 1 : Nat) : Int) := by push_cast; rfl
    rw [this]
    exact h1

/-- For natural `W`, `H` and `L > 0` whose product `W * H` fits in `int`, the function returns
the specified table. -/
theorem build_map_nat (W H L : Nat) (hH : 0 < H) (hL : 0 < L) (hfit : W * H ≤ 2147483647) :
    build_interleave_columns_map (W : Int) (H : Int) (L : Int) = Exec.ok (spec_table W H L) := by
  have hW : W ≤ 2147483647 := by
    have : W * 1 ≤ W * H := Nat.mul_le_mul_left W hH
    omega
  have e2 := int_mul_nat W H hfit
  have e3 := int_div_nat (W * H) L hL hfit
  have e4 : ¬ (((W * H : Nat) : Int) < 0) := by omega
  have hinit : filled W H L (0 * W) (List.replicate (W * H) (0 : Int)) := by
    refine ⟨List.length_replicate _ _, ?_⟩
    intro i hi
    omega
  · have e1 := int_div_nat W L hL hW
    obtain ⟨m1, h1, h2⟩ := outer_loop_fills W H L hL hfit H 0 _ (by omega) hinit
    have h1a : for_loop (fun y m => for_loop (fun x m1 => store_phys (W : Int) (L : Int)
        ((W / L : Nat) : Int) ((W * H / L : Nat) : Int) y x m1) W 0 m) H 0
        (List.replicate (W * H) (0 : Int)) = Exec.ok m1 := by
      simpa using h1
    simp only [build_interleave_columns_map, bind, Exec.bind, e1, e2, e3, e4, if_false,
      Int.toNat_ofNat, h1a]
    congr 1
    apply List.ext_getElem?
    intro i
    by_cases hi : i < W * H
    · rw [h2.2 i (by rw [Nat.mul_comm]; exact hi)]
      simp [spec_table, List.getElem?_map, List.getElem?_range hi]
    · have l1 : m1.length ≤ i := by rw [h2.1]; omega
      have l2 : (spec_table W H L).length ≤ i := by simp [spec_table]; omega
      rw [List.getElem?_eq_none l1, List.getElem?_eq_none l2]
/-! ## The address map: the table as a whole -/

theorem flat_index_lt (W H x y : Nat) (hx : x < W) (hy : y < H) : y * W + x < W * H := by
  have : (y + 1) * W ≤ H * W := Nat.mul_le_mul_right _ hy
  nlinarith

theorem flat_index_mod (W x y : Nat) (hx : x < W) : (y * W + x) % W = x := by
  rw [Nat.add_comm, Nat.add_mul_mod_self_right]
  exact Nat.mod_eq_of_lt hx

theorem flat_index_div (W x y : Nat) (hx : x < W) : (y * W + x) / W = y := by
  rw [Nat.add_comm, Nat.add_mul_div_right _ _ (by omega : 0 < W), Nat.div_eq_of_lt hx]
  simp

theorem spec_table_length (W H L : Nat) : (spec_table W H L).length = W * H := by
  simp [spec_table]

theorem spec_table_getElem (W H L i : Nat) (hi : i < W * H) :
    (spec_table W H L)[i]? = some (table_entry W H L i) := by
  simp [spec_table, List.getElem?_map, List.getElem?_range hi]

/-- The entry of the specified table at the row-major position of `(x, y)` is the physical
index of the specification. -/
theorem spec_table_at (W H L x y : Nat) (hx : x < W) (hy : y < H) :
    (spec_table W H L)[y * W + x]? = some (phys_index (W : Int) (H : Int) (L : Int) (x : Int) (y : Int)) := by
  rw [spec_table_getElem W H L _ (flat_index_lt W H x y hx hy), phys_index_nat]
  simp only [table_entry, entry_nat, flat_index_mod W x y hx, flat_index_div W x y hx]

/-- When `W * H` does not fit in `int`, the function has no result: the product overflows. -/
theorem build_map_overflow (W H LANES : Int) (hfit : INT_MAX < W * H) (t : List Int) :
    build_interleave_columns_map W H LANES ≠ Exec.ok t := by
  have hov : int_mul W H = Exec.fault Fault.signed_overflow := by
    unfold int_mul int_result
    rw [if_neg]
    intro h
    omega
  unfold build_interleave_columns_map
  cases hdiv : int_div W LANES with
  | ok lw => simp [bind, Exec.bind, hov]
  | fault f => simp [bind, Exec.bind]
/-- C2 (amended). For every `width > 0`, `height > 0` and `lanes > 0` with
`width * height ≤ INT_MAX`, `build_interleave_columns_map` returns a table of length
`width * height` whose entry at the logical index `y * width + x` is
`(x mod lanes) * ((width * height) div lanes) + y * (width div lanes) + (x div lanes)`; and
for `width = 4`, `height = 2`, `lanes = 2` the table is `[0, 4, 1, 5, 2, 6, 3, 7]`. -/
theorem build_map_entries (W H LANES : Int) (hW : 0 < W) (hH : 0 < H) (hL : 0 < LANES)
    (hfit : W * H ≤ INT_MAX) :
    (∃ t : List Int, build_interleave_columns_map W H LANES = Exec.ok t ∧
      (t.length : Int) = W * H ∧
      ∀ x y : Int, 0 ≤ x → x < W → 0 ≤ y → y < H →
        t[(y * W + x).toNat]? = some ((x % LANES) * ((W * H) / LANES) + y * (W / LANES) + x / LANES)) ∧
    build_interleave_columns_map 4 2 2 = Exec.ok [0, 4, 1, 5, 2, 6, 3, 7] := by
  refine ⟨?_, by decide⟩
  lift W to ℕ using hW.le
  lift H to ℕ using hH.le
  lift LANES to ℕ using hL.le
  have hfitN : W * H ≤ 2147483647 := by unfold INT_MAX at hfit; exact_mod_cast hfit
  refine ⟨spec_table W H LANES,
    build_map_nat W H LANES (by exact_mod_cast hH) (by exact_mod_cast hL) hfitN, ?_, ?_⟩
  · rw [spec_table_length]; push_cast; rfl
  · intro x y hx0 hx hy0 hy
    lift x to ℕ using hx0
    lift y to ℕ using hy0
    have e : ((y : Int) * (W : Int) + (x : Int)).toNat = y * W + x := by
      rw [← Nat.cast_mul, ← Nat.cast_add]; exact Int.toNat_ofNat _
    rw [e]
    exact spec_table_at W H LANES x y (by exact_mod_cast hx) (by exact_mod_cast hy)

/-- C2 as stated fails: for `width = height = 65536` and `lanes = 1` the product
`width * height` overflows `int`, and the function returns no table. -/
theorem entries_claim_fails_on_overflow :
    ¬ (∀ W H LANES : Int, 0 < W → 0 < H → 0 < LANES →
        ∃ t : List Int, build_interleave_columns_map W H LANES = Exec.ok t ∧
          (t.length : Int) = W * H ∧
          ∀ x y : Int, 0 ≤ x → x < W → 0 ≤ y → y < H →
            t[(y * W + x).toNat]? = some ((x % LANES) * ((W * H) / LANES) + y * (W / LANES) + x / LANES)) := by
  intro h
  obtain ⟨t, ht, _⟩ := h 65536 65536 1 (by decide) (by decide) (by decide)
  exact build_map_overflow 65536 65536 1 (by decide) t ht

/-- Witness for C2: the panel of width 4, height 2 and 2 lanes. -/
theorem build_map_entries_witness :
    ((0 : Int) < 4 ∧ (0 : Int) < 2 ∧ (0 : Int) < 2 ∧ (4 : Int) * 2 ≤ INT_MAX) ∧
      (∃ t : List Int, build_interleave_columns_map 4 2 2 = Exec.ok t ∧
        (t.length : Int) = 4 * 2 ∧
        ∀ x y : Int, 0 ≤ x → x < 4 → 0 ≤ y → y < 2 →
          t[(y * 4 + x).toNat]? = some ((x % 2) * ((4 * 2) / 2) + y * (4 / 2) + x / 2)) ∧
      build_interleave_columns_map 4 2 2 = Exec.ok [0, 4, 1, 5, 2, 6, 3, 7] :=
  ⟨by decide, build_map_entries 4 2 2 (by decide) (by decide) (by decide) (by decide)⟩

/-! ## The address map is a permutation when the lanes divide the width -/

/-- A three-digit mixed-radix number `a * (q * H) + b * q + c` with `b < H` and `c < q`
determines its digits. -/
theorem mixed_radix_inj (q H a b c a1 b1 c1 : Nat) (hb : b < H) (hc : c < q) (hb1 : b1 < H)
    (hc1 : c1 < q) (h : a * (q * H) + b * q + c = a1 * (q * H) + b1 * q + c1) :
    a = a1 ∧ b = b1 ∧ c = c1 := by
  have hlow : b * q + c < q * H := flat_index_lt q H c b hc hb
  have hlow1 : b1 * q + c1 < q * H := flat_index_lt q H c1 b1 hc1 hb1
  have hz : (a : Int) * ((q * H : Nat) : Int) + ((b * q + c : Nat) : Int)
      = (a1 : Int) * ((q * H : Nat) : Int) + ((b1 * q + c1 : Nat) : Int) := by
    have := congrArg (fun n : Nat => (n : Int)) h
    push_cast at this ⊢
    linarith
  obtain ⟨e1, e2⟩ := flat_index_inj ((q * H : Nat) : Int) _ _ _ _ (Int.ofNat_nonneg _)
    (by exact_mod_cast hlow) (Int.ofNat_nonneg _) (by exact_mod_cast hlow1) hz
  have e1n : b * q + c = b1 * q + c1 := by exact_mod_cast e1
  have hz2 : (b : Int) * (q : Int) + (c : Int) = (b1 : Int) * (q : Int) + (c1 : Int) := by
    exact_mod_cast e1n
  obtain ⟨e3, e4⟩ := flat_index_inj (q : Int) _ _ _ _ (Int.ofNat_nonneg _)
    (by exact_mod_cast hc) (Int.ofNat_nonneg _) (by exact_mod_cast hc1) hz2
  exact ⟨by exact_mod_cast e2, by exact_mod_cast e4, by exact_mod_cast e3⟩

theorem table_entry_eq (W H L i : Nat) : table_entry W H L i = ((entry_nat W H L i : Nat) : Int) :=
  rfl

/-- With `W = q * L`, the entry at `i` is the mixed-radix number with digits
`(i mod W) mod L`, `i div W` and `(i mod W) div L`. -/
theorem entry_nat_divisible (q H L i : Nat) (hL : 0 < L) :
    entry_nat (q * L) H L i
      = i % (q * L) % L * (q * H) + i / (q * L) * q + i % (q * L) / L := by
  unfold entry_nat
  have h1 : q * L * H / L = q * H := by
    have : q * L * H = L * (q * H) := by ring
    rw [this, Nat.mul_div_cancel_left _ hL]
  rw [h1, Nat.mul_div_cancel _ hL]

theorem entry_nat_lt (q H L i : Nat) (hL : 0 < L) (hi : i < q * L * H) :
    entry_nat (q * L) H L i < q * L * H := by
  rw [entry_nat_divisible q H L i hL]
  have hW : 0 < q * L := by
    rcases Nat.eq_zero_or_pos (q * L) with h | h
    · rw [h] at hi; simp at hi
    · exact h
  have hy : i / (q * L) < H := by
    rw [Nat.div_lt_iff_lt_mul hW]; rw [Nat.mul_comm]; exact hi
  have hx : i % (q * L) < q * L := Nat.mod_lt _ hW
  have hxl : i % (q * L) / L < q := by
    rw [Nat.div_lt_iff_lt_mul hL]; exact hx
  have hlane : i % (q * L) % L + 1 ≤ L := Nat.mod_lt _ hL
  have hlow : i / (q * L) * q + i % (q * L) / L < q * H := flat_index_lt q H _ _ hxl hy
  have h1 : (i % (q * L) % L + 1) * (q * H) ≤ L * (q * H) := Nat.mul_le_mul_right _ hlane
  have h2 : L * (q * H) = q * L * H := by ring
  have h3 : (i % (q * L) % L + 1) * (q * H) = i % (q * L) % L * (q * H) + q * H := by ring
  omega

theorem entry_nat_inj (q H L i j : Nat) (hL : 0 < L) (hi : i < q * L * H) (hj : j < q * L * H)
    (h : entry_nat (q * L) H L i = entry_nat (q * L) H L j) : i = j := by
  rw [entry_nat_divisible q H L i hL, entry_nat_divisible q H L j hL] at h
  have hW : 0 < q * L := by
    rcases Nat.eq_zero_or_pos (q * L) with h0 | h0
    · rw [h0] at hi; simp at hi
    · exact h0
  have hyi : i / (q * L) < H := by
    rw [Nat.div_lt_iff_lt_mul hW]; rw [Nat.mul_comm]; exact hi
  have hyj : j / (q * L) < H := by
    rw [Nat.div_lt_iff_lt_mul hW]; rw [Nat.mul_comm]; exact hj
  have hxi : i % (q * L) / L < q := by
    rw [Nat.div_lt_iff_lt_mul hL]; exact Nat.mod_lt _ hW
  have hxj : j % (q * L) / L < q := by
    rw [Nat.div_lt_iff_lt_mul hL]; exact Nat.mod_lt _ hW
  obtain ⟨e1, e2, e3⟩ := mixed_radix_inj q H _ _ _ _ _ _ hyi hxi hyj hxj h
  have ex : i % (q * L) = j % (q * L) := by
    rw [← Nat.div_add_mod (i % (q * L)) L, ← Nat.div_add_mod (j % (q * L)) L, e1, e3]
  rw [← Nat.div_add_mod i (q * L), ← Nat.div_add_mod j (q * L), e2, ex]

/-- When `L` divides `W`, the specified table is a permutation of `[0, W * H)`. -/
theorem spec_table_perm (W H L : Nat) (hL : 0 < L) (hdiv : W % L = 0) :
    is_permutation_of_range (spec_table W H L) ((W * H : Nat) : Int) := by
  obtain ⟨q, hq⟩ : ∃ q, W = q * L := ⟨W / L, by
    have := Nat.div_add_mod W L
    rw [hdiv] at this
    rw [Nat.mul_comm]; omega⟩
  subst hq
  have hmap : spec_table (q * L) H L
      = ((List.range (q * L * H)).map (entry_nat (q * L) H L)).map (fun n : Nat => (n : Int)) := by
    simp [spec_table, List.map_map, Function.comp_def, table_entry_eq]
  have hnd : ((List.range (q * L * H)).map (entry_nat (q * L) H L)).Nodup := by
    apply List.Nodup.map_on _ (List.nodup_range _)
    intro i hi j hj h
    exact entry_nat_inj q H L i j hL (List.mem_range.mp hi) (List.mem_range.mp hj) h
  have hsub : ((List.range (q * L * H)).map (entry_nat (q * L) H L)).toFinset
      ⊆ Finset.range (q * L * H) := by
    intro v hv
    rw [List.mem_toFinset, List.mem_map] at hv
    obtain ⟨i, hi, rfl⟩ := hv
    exact Finset.mem_range.mpr (entry_nat_lt q H L i hL (List.mem_range.mp hi))
  have hcard : (Finset.range (q * L * H)).card
      ≤ ((List.range (q * L * H)).map (entry_nat (q * L) H L)).toFinset.card := by
    rw [List.toFinset_card_of_nodup hnd]; simp
  have heq := Finset.eq_of_subset_of_card_le hsub hcard
  constructor
  · intro v hv
    rw [hmap, List.mem_map] at hv
    obtain ⟨n, hn, rfl⟩ := hv
    rw [List.mem_map] at hn
    obtain ⟨i, hi, rfl⟩ := hn
    have := entry_nat_lt q H L i hL (List.mem_range.mp hi)
    exact ⟨Int.ofNat_nonneg _, by exact_mod_cast this⟩
  · intro p hp0 hp
    lift p to ℕ using hp0
    have hpn : p < q * L * H := by exact_mod_cast hp
    rw [hmap, List.count_map_of_injective _ _ Nat.cast_injective]
    apply List.count_eq_one_of_mem hnd
    rw [← List.mem_toFinset, heq]
    exact Finset.mem_range.mpr hpn
/-- C1 (amended). For every `width > 0`, `height > 0` and `lanes > 0` with `lanes` dividing
`width` evenly and `width * height ≤ INT_MAX`, the table that `build_interleave_columns_map`
returns has length `width * height` and is a permutation of `[0, width * height)`: every entry
lies in that range and every physical index of that range appears exactly once. -/
theorem build_map_permutation (W H LANES : Int) (hW : 0 < W) (hH : 0 < H) (hL : 0 < LANES)
    (hdiv : W % LANES = 0) (hfit : W * H ≤ INT_MAX) :
    ∃ t : List Int, build_interleave_columns_map W H LANES = Exec.ok t ∧
      (t.length : Int) = W * H ∧ is_permutation_of_range t (W * H) := by
  lift W to ℕ using hW.le
  lift H to ℕ using hH.le
  lift LANES to ℕ using hL.le
  have hfitN : W * H ≤ 2147483647 := by unfold INT_MAX at hfit; exact_mod_cast hfit
  have hLn : 0 < LANES := by exact_mod_cast hL
  have hdivN : W % LANES = 0 := by exact_mod_cast hdiv
  refine ⟨spec_table W H LANES, build_map_nat W H LANES (by exact_mod_cast hH) hLn hfitN, ?_, ?_⟩
  · rw [spec_table_length]; push_cast; rfl
  · have := spec_table_perm W H LANES hLn hdivN
    rw [Nat.cast_mul] at this
    exact this

/-- C1 as stated fails: for `width = height = 65536` and `lanes = 1` (which divides the width)
the product `width * height` overflows `int`, and the function returns no table. -/
theorem permutation_claim_fails_on_overflow :
    ¬ (∀ W H LANES : Int, 0 < W → 0 < H → 0 < LANES → W % LANES = 0 →
        ∃ t : List Int, build_interleave_columns_map W H LANES = Exec.ok t ∧
          is_permutation_of_range t (W * H)) := by
  intro h
  obtain ⟨t, ht, _⟩ := h 65536 65536 1 (by decide) (by decide) (by decide) (by decide)
  exact build_map_overflow 65536 65536 1 (by decide) t ht

/-- Witness for C1: the panel of width 4, height 2 and 2 lanes. -/
theorem build_map_permutation_witness :
    ((0 : Int) < 4 ∧ (0 : Int) < 2 ∧ (0 : Int) < 2 ∧ (4 : Int) % 2 = 0 ∧
        (4 : Int) * 2 ≤ INT_MAX) ∧
      ∃ t : List Int, build_interleave_columns_map 4 2 2 = Exec.ok t ∧
        (t.length : Int) = 4 * 2 ∧ is_permutation_of_range t (4 * 2) :=
  ⟨by decide,
    build_map_permutation 4 2 2 (by decide) (by decide) (by decide) (by decide) (by decide)⟩

/-! ## The address map is not a permutation when the lanes do not divide the width -/

theorem nodup_of_permutation_of_range (t : List Int) (n : Int)
    (h : is_permutation_of_range t n) : t.Nodup := by
  rw [List.nodup_iff_count_le_one]
  intro a
  by_cases ha : a ∈ t
  · obtain ⟨h0, h1⟩ := h.1 a ha
    rw [h.2 a h0 h1]
  · rw [List.count_eq_zero_of_not_mem ha]
    omega

/-- Two distinct positions of the specified table that hold the same entry rule out a
permutation. -/
theorem not_permutation_of_collision (W H L i j : Nat) (hi : i < W * H) (hj : j < W * H)
    (hne : i ≠ j) (h : entry_nat W H L i = entry_nat W H L j) (n : Int) :
    ¬ is_permutation_of_range (spec_table W H L) n := by
  intro hp
  have hnd := nodup_of_permutation_of_range _ _ hp
  have hi1 : i < (spec_table W H L).length := by rw [spec_table_length]; exact hi
  have hj1 : j < (spec_table W H L).length := by rw [spec_table_length]; exact hj
  have e : (spec_table W H L)[i] = (spec_table W H L)[j] := by
    have a1 := spec_table_getElem W H L i hi
    have a2 := spec_table_getElem W H L j hj
    rw [List.getElem?_eq_getElem hi1] at a1
    rw [List.getElem?_eq_getElem hj1] at a2
    have b1 := Option.some.inj a1
    have b2 := Option.some.inj a2
    rw [b1, b2, table_entry_eq, table_entry_eq, h]
  exact hne ((List.Nodup.getElem_inj_iff hnd).mp e)

/-- When `L` does not divide `W` and the panel has more than one pixel, two logical pixels
share a physical index: with `q = W div L`, the pixels `(q * L, 0)` and `(0, 1)` when there
are two rows, and the pixels `(1, 0)` and `(q * L, 0)` when there is a single row. -/
theorem entry_nat_collision (W H L : Nat) (hW : 0 < W) (hH : 0 < H) (hL : 0 < L)
    (hndiv : W % L ≠ 0) (hbig : W * H ≠ 1) :
    ∃ i j : Nat, i < W * H ∧ j < W * H ∧ i ≠ j ∧ entry_nat W H L i = entry_nat W H L j := by
  have hdm := Nat.div_add_mod W L
  have hqL : W / L * L < W := by
    have : L * (W / L) = W / L * L := Nat.mul_comm _ _
    omega
  have hL2 : 2 ≤ L := by
    rcases Nat.lt_or_ge L 2 with h | h
    · have : L = 1 := by omega
      rw [this, Nat.mod_one] at hndiv
      exact absurd rfl hndiv
    · exact h
  have eq_qL : ∀ lp : Nat, W / L * L % W % L * lp + W / L * L / W * (W / L) + W / L * L % W / L
      = W / L := by
    intro lp
    rw [Nat.mod_eq_of_lt hqL, Nat.div_eq_of_lt hqL, Nat.mul_mod_left, Nat.mul_div_cancel _ hL]
    simp
  rcases Nat.lt_or_ge H 2 with hH1 | hH2
  · have hH1 : H = 1 := by omega
    subst hH1
    have hW2 : 2 ≤ W := by
      rw [Nat.mul_one] at hbig
      omega
    refine ⟨1, W / L * L, by omega, by omega, ?_, ?_⟩
    · intro h
      rcases Nat.eq_zero_or_pos (W / L) with h0 | h0
      · rw [h0] at h; simp at h
      · have : 1 * L ≤ W / L * L := Nat.mul_le_mul_right L h0
        omega
    · unfold entry_nat
      rw [eq_qL, Nat.mul_one, Nat.mod_eq_of_lt (by omega : 1 < W), Nat.div_eq_of_lt (by omega : 1 < W),
        Nat.mod_eq_of_lt (by omega : 1 < L), Nat.div_eq_of_lt (by omega : 1 < L)]
      simp
  · refine ⟨W / L * L, W, ?_, ?_, by omega, ?_⟩
    · have : W * 1 ≤ W * H := Nat.mul_le_mul_left W hH
      omega
    · have : W * 2 ≤ W * H := Nat.mul_le_mul_left W hH2
      omega
    · unfold entry_nat
      rw [eq_qL, Nat.mod_self, Nat.div_self hW, Nat.zero_mod, Nat.zero_div]
      simp
/-- C8 (amended). For every `width > 0`, `height > 0` and `lanes > 0` where `lanes` does not
divide `width` and the panel has more than one pixel (`width * height ≠ 1`), no table that
`build_interleave_columns_map` returns is a permutation of `[0, width * height)`; and when
`width * height ≤ INT_MAX` the function does return a table, which is not such a permutation. -/
theorem build_map_not_permutation (W H LANES : Int) (hW : 0 < W) (hH : 0 < H) (hL : 0 < LANES)
    (hndiv : W % LANES ≠ 0) (hbig : W * H ≠ 1) :
    (¬ ∃ t : List Int, build_interleave_columns_map W H LANES = Exec.ok t ∧
        is_permutation_of_range t (W * H)) ∧
      (W * H ≤ INT_MAX →
        ∃ t : List Int, build_interleave_columns_map W H LANES = Exec.ok t ∧
          ¬ is_permutation_of_range t (W * H)) := by
  have key : W * H ≤ INT_MAX →
      ∃ t : List Int, build_interleave_columns_map W H LANES = Exec.ok t ∧
        ¬ is_permutation_of_range t (W * H) := by
    intro hfit
    lift W to ℕ using hW.le
    lift H to ℕ using hH.le
    lift LANES to ℕ using hL.le
    have hfitN : W * H ≤ 2147483647 := by unfold INT_MAX at hfit; exact_mod_cast hfit
    have hWn : 0 < W := by exact_mod_cast hW
    have hHn : 0 < H := by exact_mod_cast hH
    have hLn : 0 < LANES := by exact_mod_cast hL
    have hndivN : W % LANES ≠ 0 := by exact_mod_cast hndiv
    have hbigN : W * H ≠ 1 := by exact_mod_cast hbig
    obtain ⟨i, j, hi, hj, hne, he⟩ := entry_nat_collision W H LANES hWn hHn hLn hndivN hbigN
    exact ⟨spec_table W H LANES, build_map_nat W H LANES hHn hLn hfitN,
      not_permutation_of_collision W H LANES i j hi hj hne he _⟩
  refine ⟨?_, key⟩
  rintro ⟨t, ht, hp⟩
  rcases le_or_lt (W * H) INT_MAX with hfit | hov
  · obtain ⟨t1, ht1, hnp⟩ := key hfit
    rw [ht] at ht1
    have : t = t1 := Exec.ok.inj ht1
    subst this
    exact hnp hp
  · exact build_map_overflow W H LANES hov t ht

/-- C8 as stated fails: for `width = 1`, `height = 1` and `lanes = 2` (which does not divide
the width) the table is `[0]`, a permutation of `[0, 1)`. -/
theorem single_pixel_table_is_permutation :
    ¬ (∀ W H LANES : Int, 0 < W → 0 < H → 0 < LANES → W % LANES ≠ 0 →
        ¬ ∃ t : List Int, build_interleave_columns_map W H LANES = Exec.ok t ∧
          is_permutation_of_range t (W * H)) := by
  intro h
  apply h 1 1 2 (by decide) (by decide) (by decide) (by decide)
  refine ⟨[0], by decide, ?_, ?_⟩
  · intro v hv
    simp at hv
    subst hv
    decide
  · intro p hp0 hp
    have : p = 0 := by omega
    subst this
    simp

/-- Witness for C8: the panel of width 3, height 2 and 2 lanes. -/
theorem build_map_not_permutation_witness :
    ((0 : Int) < 3 ∧ (0 : Int) < 2 ∧ (0 : Int) < 2 ∧ (3 : Int) % 2 ≠ 0 ∧ (3 : Int) * 2 ≠ 1) ∧
      (¬ ∃ t : List Int, build_interleave_columns_map 3 2 2 = Exec.ok t ∧
        is_permutation_of_range t (3 * 2)) ∧
      (∃ t : List Int, build_interleave_columns_map 3 2 2 = Exec.ok t ∧
        ¬ is_permutation_of_range t (3 * 2)) :=
  ⟨by decide,
    (build_map_not_permutation 3 2 2 (by decide) (by decide) (by decide) (by decide)
      (by decide)).1,
    (build_map_not_permutation 3 2 2 (by decide) (by decide) (by decide) (by decide)
      (by decide)).2 (by decide)⟩
end Piomatter
